import Mathlib

/-!
Verification of the CSP policy resolution and compilation engine of the
vite-plugin-content-security-policy repository, shallowly embedded in Lean.

Modelling conventions:
* A TypeScript object literal used as a map (an environment map or a rule set)
  is modelled as an association list in insertion order; property lookup takes
  the first matching key, and a spread-with-override `{...m, [k]: v}` rewrites
  the value of an existing key in place (appending when the key is absent).
* `environment?: Environment` parameters are modelled as `Option String`.
* JavaScript `String.prototype.replace` with a string pattern replaces only the
  first occurrence of the pattern; `$`-escape expansion in the replacement
  string is not modelled (the program only substitutes base64 nonce values,
  which never contain `$`).
* Reading a missing `default` property of an environment map would produce the
  JavaScript `undefined` value, which the surrounding template literals render
  as the text "undefined"; the embedding collapses this to the sentinel string
  "undefined" at the lookup site.
-/

/-- A directive's value: either a plain origin string, or an environment map
object (association list of environment name to origin string, the mandatory
`default` entry being an ordinary key of the object). Mirrors the source type
`AuthorisedOrigins` of `CspDirectives.ts`. -/
inductive AuthorisedOrigins where
  | str (s : String)
  | map (m : List (String × String))
deriving DecidableEq, Repr

/-- A rule set: association list from directive names to values, in insertion
order. Mirrors the source type `CspPolicies`. -/
abbrev CspPolicies := List (String × AuthorisedOrigins)

/-- JavaScript property read `m[k]` on an object modelled as an association
list: first matching key wins. -/
def objGet {α : Type} : List (String × α) → String → Option α
  | [], _ => none
  | (k₁, v) :: rest, k => if k₁ = k then some v else objGet rest k

/-- Entry rewrite used by the spread-with-override embedding: the entry whose
key is `k` receives the value `v`, every other entry is untouched. -/
def objReplaceEntry {α : Type} (k : String) (v : α) : String × α → String × α
  | (k₁, v₁) => if k₁ = k then (k, v) else (k₁, v₁)

/-- JavaScript spread-with-override `{...m, [k]: v}`: an existing key keeps its
position and receives the new value; an absent key is appended at the end. -/
def objSet {α : Type} (m : List (String × α)) (k : String) (v : α) : List (String × α) :=
  if m.any (fun p => p.1 == k) then m.map (objReplaceEntry k v)
  else m ++ [(k, v)]

/-- Substring test on character lists: does `pat` occur contiguously in `s`?
Backs the embedding of JavaScript `String.prototype.includes`. -/
def listContains : List Char → List Char → Bool
  | s, pat =>
    match s with
    | [] => pat.isEmpty
    | _ :: rest => pat.isPrefixOf s || listContains rest pat

/-- Embedding of JavaScript `s.includes(pat)`. -/
def jsIncludes (s pat : String) : Bool :=
  listContains s.data pat.data

/-- Replace the first occurrence of `pat` in a character list by `rep`,
leaving the list unchanged when `pat` does not occur. This is the semantics of
JavaScript `String.prototype.replace` with a string pattern. -/
def jsReplaceList (pat rep : List Char) : List Char → List Char
  | [] => if pat.isEmpty then rep else []
  | c :: rest =>
    if pat.isPrefixOf (c :: rest) then rep ++ (c :: rest).drop pat.length
    else c :: jsReplaceList pat rep rest

/-- Source `replaceNoncePlaceholder` (CspProxy.ts): `initialValue.replace(placeholder, nonceValue)`,
i.e. first-occurrence string replacement. -/
def replaceNoncePlaceholder (initialValue placeholder nonceValue : String) : String :=
  ⟨jsReplaceList placeholder.data nonceValue.data initialValue.data⟩

/-- The quoted nonce pattern searched for by the substitution pass:
`'nonce-${noncePlaceholder}'` (CspProxy.ts, `computeRulesWithNonce`). -/
def nonceToReplace (noncePlaceholder : String) : String :=
  "'nonce-" ++ noncePlaceholder ++ "'"

/-- Source `computeOriginForEnvironment` (ComputeOriginForEnvironment.ts):
a plain string is returned unchanged; for an environment map the expression
`origine[environment] ?? origine.default` is evaluated. -/
def computeOriginForEnvironment (origine : AuthorisedOrigins) (environment : Option String) : String :=
  match origine with
  | .str s => s
  | .map m =>
    match (match environment with
           | some e => objGet m e
           | none => none) with
    | some v => v
    | none => ((objGet m "default").getD "undefined")

/-- Reference definition of the origin resolver written from the words of the
spec (§4.1): a plain string is environment-independent; for an environment map,
the environment's entry is returned when the environment is provided and
present as a key, and the `default` entry otherwise (the sentinel "undefined"
standing for a map that violates the mandatory-`default` invariant). -/
def resolveSpec (value : AuthorisedOrigins) (environment : Option String) : String :=
  match value with
  | .str s => s
  | .map m =>
    match environment with
    | some e =>
      match objGet m e with
      | some v => v
      | none => ((objGet m "default").getD "undefined")
    | none => ((objGet m "default").getD "undefined")

/-- Source `computeDevelopmentDirective` (CspProxy.ts, live-serving compile):
`Object.entries(policies).reduce((rules, [directive, value]) => ..., '')`
appending `` `${rules}${directive} ${allowedOrigin};` `` where `allowedOrigin`
is `typeof value === 'string' ? value : value.default`. -/
def computeDevelopmentDirective (policies : CspPolicies) : String :=
  policies.foldl
    (fun rules p =>
      let allowedOrigin : String :=
        match p.2 with
        | .str s => s
        | .map m => ((objGet m "default").getD "undefined")
      rules ++ p.1 ++ " " ++ allowedOrigin ++ ";")
    ""

/-- Reference definition of the live-serving compile written from the words of
the spec (§4.3): the concatenation, in rule-set order, of `"<directive> <value>;"`
for every entry, resolved with no explicit environment, with no inter-entry
separator. -/
def liveCompileSpec : CspPolicies → String
  | [] => ""
  | p :: rest => p.1 ++ " " ++ resolveSpec p.2 none ++ ";" ++ liveCompileSpec rest

/-- Source `computeDirectivesForDevelopmentEnvironment` (nonce-aware revision of
CspProxy.ts): same reduce loop but resolving through `computeOriginForEnvironment`
with the development key and appending `` `${rules}${directive} ${allowedOrigin}; ` ``
(note the trailing space after each semicolon). -/
def computeDirectivesForDevelopmentEnvironment (policies : CspPolicies)
    (developmentKey : Option String) : String :=
  policies.foldl
    (fun rules p =>
      rules ++ p.1 ++ " " ++ computeOriginForEnvironment p.2 developmentKey ++ "; ")
    ""

/-- Embedding of JavaScript `Array.prototype.join(sep)`. -/
def jsJoin (sep : String) : List String → String
  | [] => ""
  | [a] => a
  | a :: b :: rest => a ++ sep ++ jsJoin sep (b :: rest)

/-- Source `computeCspDirectiveForEnvironment` (ComputeOriginForEnvironment.ts /
CspConfigurationFileGeneration.ts): map each entry to `` `${directive} ${allowedOrigin}` ``
and join with `'; '`. -/
def computeCspDirectiveForEnvironment (policies : CspPolicies) (environment : Option String) : String :=
  jsJoin "; " (policies.map (fun p => p.1 ++ " " ++ computeOriginForEnvironment p.2 environment))

/-- Reference definition of the per-environment compile written from the words
of the spec (§4.3): one `"<directive> <value>"` clause per entry, in rule-set
order, separated by `"; "` with no trailing separator. -/
def envCompileSpec (environment : Option String) : CspPolicies → String
  | [] => ""
  | [p] => p.1 ++ " " ++ resolveSpec p.2 environment
  | p :: q :: rest =>
    p.1 ++ " " ++ resolveSpec p.2 environment ++ "; " ++ envCompileSpec environment (q :: rest)

/-- Source `ReportType` (CspHeaders.ts). -/
inductive ReportType where
  | report
  | strict
deriving DecidableEq, Repr

/-- Source `computeHeaderNameByReportType` (CspHeaders.ts):
`HEADER_NAME_BY_REPORT_TYPE[reportType ?? 'strict']`. -/
def computeHeaderNameByReportType (reportType : Option ReportType) : String :=
  match reportType with
  | some .report => "Content-Security-Policy-Report-Only"
  | some .strict => "Content-Security-Policy"
  | none => "Content-Security-Policy"

/-- Source `computeConfigurationFileContent` (CspConfigurationFileGeneration.ts). -/
def computeConfigurationFileContent (headerName directive : String) : String :=
  let nginxHeader : String := "add_header " ++ headerName ++ " \x22" ++ directive ++ "\x22;"
  let apacheHeader : String := "Header set " ++ headerName ++ " \x22" ++ directive ++ "\x22"
  "# Nginx configuration\n" ++ nginxHeader ++ "\n\n# Apache configuration\n" ++ apacheHeader ++ "\n"

/-- The third guarded case of source `computeRulesWithNonce`: if
`value.default && value.default.includes(nonceToReplace)` (JavaScript truthiness:
the entry must exist and be a non-empty string), rewrite the `default` entry in
a fresh object; otherwise the value passes through unchanged. -/
def substMapDefault (nonceValue noncePlaceholder : String) (m : List (String × String)) :
    AuthorisedOrigins :=
  match objGet m "default" with
  | some dv =>
    if !(dv == "") && jsIncludes dv (nonceToReplace noncePlaceholder) then
      .map (objSet m "default" (replaceNoncePlaceholder dv noncePlaceholder nonceValue))
    else .map m
  | none => .map m

/-- The second guarded case of source `computeRulesWithNonce` for an
environment-map value: if `developmentKey && value[developmentKey] &&
value[developmentKey].includes(nonceToReplace)` (truthiness again), rewrite the
development entry in a fresh object and return early; otherwise fall through to
the `default` case. The early `return`s of the source make these checks
mutually exclusive. -/
def substMap (nonceValue noncePlaceholder : String) :
    Option String → List (String × String) → AuthorisedOrigins
  | some k, m =>
    (match objGet m k with
     | some e =>
       if !(k == "") && (!(e == "") && jsIncludes e (nonceToReplace noncePlaceholder)) then
         .map (objSet m k (replaceNoncePlaceholder e noncePlaceholder nonceValue))
       else substMapDefault nonceValue noncePlaceholder m
     | none => substMapDefault nonceValue noncePlaceholder m)
  | none, m => substMapDefault nonceValue noncePlaceholder m

/-- Per-entry value transformation of source `computeRulesWithNonce`: the first
guarded case handles plain strings containing the quoted nonce pattern; the
object cases are handled by `substMap`. -/
def substValue (nonceValue noncePlaceholder : String) (developmentKey : Option String) :
    AuthorisedOrigins → AuthorisedOrigins
  | .str s =>
    if jsIncludes s (nonceToReplace noncePlaceholder) then
      .str (replaceNoncePlaceholder s noncePlaceholder nonceValue)
    else .str s
  | .map m => substMap nonceValue noncePlaceholder developmentKey m

/-- Source `computeRulesWithNonce` (CspProxy.ts): rebuilds the rule set through
`Object.fromEntries(Object.entries(rules).map(...))`, transforming each
directive's value with the guarded cases above. -/
def computeRulesWithNonce (rules : CspPolicies) (nonceValue noncePlaceholder : String)
    (developmentKey : Option String) : CspPolicies :=
  rules.map (fun p => (p.1, substValue nonceValue noncePlaceholder developmentKey p.2))

/-- The placeholder does not occur in any string component of a value (plain
string, or any entry of an environment map, `default` included). -/
def valuePlaceholderFree (noncePlaceholder : String) : AuthorisedOrigins → Bool
  | .str s => !(jsIncludes s noncePlaceholder)
  | .map m => m.all (fun p => !(jsIncludes p.2 noncePlaceholder))

/-- The placeholder does not occur anywhere in the rule set's values. -/
def rulesPlaceholderFree (noncePlaceholder : String) (rules : CspPolicies) : Bool :=
  rules.all (fun p => valuePlaceholderFree noncePlaceholder p.2)

/-- Node `path.basename` (posix): ignore trailing separators, return the last
path component. -/
def basename (p : String) : String :=
  ⟨(((p.data.reverse.dropWhile (fun c => c == '/')).takeWhile (fun c => !(c == '/'))).reverse)⟩

/-- Filesystem operations performed by the artifact-generation routine
(CspConfigurationFileGeneration.ts): `mkdir(dir, {recursive: true})` and
`writeFile(path, content)`. The host filesystem is abstracted as an oracle
`FsOp → Bool` telling whether each operation succeeds. -/
inductive FsOp where
  | mkdirOp (dir : String)
  | writeOp (path : String) (content : String)
deriving DecidableEq, Repr

/-- Observable outcome of `generateCspConfigurationFileForEnvironment` for one
environment: the success log (with the artifact path written) or the error log
naming the offending environment — the source catches any `mkdir`/`writeFile`
rejection and logs it instead of rethrowing. -/
inductive GenLogEntry where
  | success (environment : String) (path : String) (content : String)
  | failure (environment : String)
deriving DecidableEq, Repr

/-- The environment an outcome is about (both log messages of the source
include the environment). -/
def genLogEnvironment : GenLogEntry → String
  | .success e _ _ => e
  | .failure e => e

/-- The fixed output directory of the source. -/
def cspOutputDirectory : String := "content-security-policy/configurations"

/-- The per-environment artifact path: `path.join` of the output directory and
`csp-configuration.<environment>.txt`. -/
def cspArtifactPath (environment : String) : String :=
  cspOutputDirectory ++ "/csp-configuration." ++ environment ++ ".txt"

/-- Source `generateCspConfigurationFileForEnvironment`
(CspConfigurationFileGeneration.ts), with filesystem effects abstracted by the
oracle `fs`: compute the directive, `mkdir` the output directory, write the
artifact; any failure is caught and becomes the error log entry for this
environment. -/
def generateCspConfigurationFileForEnvironment (fs : FsOp → Bool) (headerName : String)
    (rules : CspPolicies) (environment : String) : GenLogEntry :=
  let directive : String := computeCspDirectiveForEnvironment rules (some environment)
  if fs (.mkdirOp cspOutputDirectory) then
    let content : String := computeConfigurationFileContent headerName directive
    if fs (.writeOp (cspArtifactPath environment) content) then
      .success environment (cspArtifactPath environment) content
    else .failure environment
  else .failure environment

/-- Source `generateFiles` (closure inside
`configureCspConfigurationFileGenerationPluginServer`): compute the header name
once, then generate one artifact per configured environment, sequentially in
iteration order. -/
def generateFiles (fs : FsOp → Bool) (reportType : Option ReportType) (rules : CspPolicies)
    (environments : List String) : List GenLogEntry :=
  environments.map
    (generateCspConfigurationFileForEnvironment fs (computeHeaderNameByReportType reportType) rules)

/-- Source `handleOnChange`: compare the base name of the changed path with the
base name of the configured rules-source path (default
`content-security-policy/csp-configuration.ts`) and with the fixed file name
`vite.config.ts`; regenerate everything on a match, do nothing otherwise. The
returned list is the list of generation outcomes (empty = no I/O performed). -/
def handleOnChange (fs : FsOp → Bool) (reportType : Option ReportType) (rules : CspPolicies)
    (environments : List String) (cspConfigurationFilePath : Option String)
    (changedPath : String) : List GenLogEntry :=
  let cspConfigPath : String :=
    cspConfigurationFilePath.getD "content-security-policy/csp-configuration.ts"
  let normalizedChangedPath : String := basename changedPath
  let normalizedCspPath : String := basename cspConfigPath
  if normalizedChangedPath == normalizedCspPath || normalizedChangedPath == "vite.config.ts" then
    generateFiles fs reportType rules environments
  else []

/-- A JavaScript value stored in an object property of the heap model: a
primitive string, or a reference to another object. -/
inductive JsVal where
  | vstr (s : String)
  | vref (r : Nat)
deriving DecidableEq, Repr

/-- An object of the heap model: association list of properties. -/
abbrev JsObject := List (String × JsVal)

/-- The heap: objects addressed by allocation index. -/
abbrev Store := List JsObject

/-- Heap-level transformation of one directive's value by
`computeRulesWithNonce`. A plain string yields a new primitive (no heap
effect). For an environment-map reference, reading the guards only consults the
heap; each rewriting branch builds its object with a spread (`{...value, ...}`),
which allocates a fresh object at the end of the store and leaves every existing
object untouched; the fall-through case returns the original reference. -/
def substValueHeap (store : Store) (nonceValue noncePlaceholder : String)
    (developmentKey : Option String) : JsVal → Store × JsVal
  | .vstr s =>
    (store,
      if jsIncludes s (nonceToReplace noncePlaceholder) then
        .vstr (replaceNoncePlaceholder s noncePlaceholder nonceValue)
      else .vstr s)
  | .vref r =>
    let m : JsObject := store.getD r []
    let devHit : Option (String × String) :=
      match developmentKey with
      | some k =>
        if k == "" then none
        else
          match objGet m k with
          | some (.vstr e) =>
            if !(e == "") && jsIncludes e (nonceToReplace noncePlaceholder) then some (k, e)
            else none
          | _ => none
      | none => none
    match devHit with
    | some (k, e) =>
      (store ++ [objSet m k (.vstr (replaceNoncePlaceholder e noncePlaceholder nonceValue))],
        .vref store.length)
    | none =>
      match objGet m "default" with
      | some (.vstr dv) =>
        if !(dv == "") && jsIncludes dv (nonceToReplace noncePlaceholder) then
          (store ++ [objSet m "default" (.vstr (replaceNoncePlaceholder dv noncePlaceholder nonceValue))],
            .vref store.length)
        else (store, .vref r)
      | _ => (store, .vref r)

/-- Heap-level `Object.entries(rules).map(...)` of `computeRulesWithNonce`,
threading the store through the per-entry transformations. -/
def substEntriesHeap (nonceValue noncePlaceholder : String) (developmentKey : Option String)
    (store : Store) : List (String × JsVal) → Store × List (String × JsVal)
  | [] => (store, [])
  | (d, v) :: rest =>
    let sv := substValueHeap store nonceValue noncePlaceholder developmentKey v
    let se := substEntriesHeap nonceValue noncePlaceholder developmentKey sv.1 rest
    (se.1, (d, sv.2) :: se.2)

/-- Heap-level `computeRulesWithNonce`: read the entries of the rules object,
transform them, and let `Object.fromEntries` allocate the fresh result object.
Returns the new store and the reference to the freshly built rule set. -/
def computeRulesWithNonceHeap (store : Store) (rulesRef : Nat)
    (nonceValue noncePlaceholder : String) (developmentKey : Option String) : Store × Nat :=
  let entries : JsObject := store.getD rulesRef []
  let se := substEntriesHeap nonceValue noncePlaceholder developmentKey store entries
  (se.1 ++ [se.2], se.1.length)

theorem listContains_iff (s pat : List Char) :
    listContains s pat = true ↔ ∃ l r, s = l ++ (pat ++ r) := by
  induction s with
  | nil =>
    simp only [listContains, List.isEmpty_iff]
    constructor
    · rintro rfl
      exact ⟨[], [], rfl⟩
    · rintro ⟨l, r, h⟩
      rcases List.append_eq_nil.mp h.symm with ⟨-, h₂⟩
      exact (List.append_eq_nil.mp h₂).1
  | cons c rest ih =>
    simp only [listContains, Bool.or_eq_true, List.isPrefixOf_iff_prefix, ih]
    constructor
    · rintro (⟨t, ht⟩ | ⟨l, r, rfl⟩)
      · exact ⟨[], t, ht.symm⟩
      · exact ⟨c :: l, r, rfl⟩
    · rintro ⟨l, r, h⟩
      match l, h with
      | [], h => exact Or.inl ⟨r, by simpa using h.symm⟩
      | x :: l', h =>
        rcases List.cons_eq_cons.mp h with ⟨rfl, h'⟩
        exact Or.inr ⟨l', r, h'⟩

theorem listContains_of_middle (s a p b : List Char)
    (h : listContains s (a ++ (p ++ b)) = true) : listContains s p = true := by
  rcases (listContains_iff s (a ++ (p ++ b))).mp h with ⟨l, r, rfl⟩
  exact (listContains_iff _ p).mpr ⟨l ++ a, b ++ r, by simp⟩

theorem jsIncludes_nonceToReplace_false (s ph : String) (h : jsIncludes s ph = false) :
    jsIncludes s (nonceToReplace ph) = false := by
  by_contra hc
  have ht : jsIncludes s (nonceToReplace ph) = true := by
    cases hx : jsIncludes s (nonceToReplace ph) with
    | false => exact absurd hx hc
    | true => rfl
  have : listContains s.data ("'nonce-".data ++ (ph.data ++ "'".data)) = true := by
    have hd : (nonceToReplace ph).data = "'nonce-".data ++ (ph.data ++ "'".data) := by
      simp [nonceToReplace, String.data_append]
    simpa [jsIncludes, hd] using ht
  have := listContains_of_middle _ _ _ _ this
  simp [jsIncludes] at h
  rw [h] at this
  cases this

theorem jsReplaceList_eq (pat rep s : List Char) :
    jsReplaceList pat rep s =
      if pat.isPrefixOf s then rep ++ s.drop pat.length
      else
        match s with
        | [] => []
        | c :: rest => c :: jsReplaceList pat rep rest := by
  cases s with
  | nil =>
    cases pat with
    | nil => simp [jsReplaceList, List.isPrefixOf, List.isEmpty]
    | cons p ps => simp [jsReplaceList, List.isPrefixOf, List.isEmpty]
  | cons c rest => simp [jsReplaceList]

theorem jsReplaceList_append (pat rep s₁ s₂ : List Char)
    (h : ∀ i, i < s₁.length → pat.isPrefixOf ((s₁ ++ (pat ++ s₂)).drop i) = false) :
    jsReplaceList pat rep (s₁ ++ (pat ++ s₂)) = s₁ ++ (rep ++ s₂) := by
  induction s₁ with
  | nil =>
    rw [List.nil_append, List.nil_append, jsReplaceList_eq]
    have hp : pat.isPrefixOf (pat ++ s₂) = true :=
      List.isPrefixOf_iff_prefix.mpr (List.prefix_append pat s₂)
    rw [hp]
    simp [List.drop_left]
  | cons c s₁' ih =>
    rw [List.cons_append, jsReplaceList_eq]
    have h0 : pat.isPrefixOf (c :: (s₁' ++ (pat ++ s₂))) = false := by
      have := h 0 (by simp)
      simpa using this
    rw [h0]
    simp only [Bool.false_eq_true, if_false]
    have ih' : jsReplaceList pat rep (s₁' ++ (pat ++ s₂)) = s₁' ++ (rep ++ s₂) := by
      apply ih
      intro i hi
      have := h (i + 1) (by simpa using Nat.succ_lt_succ hi)
      simpa using this
    rw [ih', List.cons_append]

theorem replaceNoncePlaceholder_split (s₁ s₂ ph sec : String)
    (h : ∀ i, i < s₁.data.length →
      ph.data.isPrefixOf ((s₁.data ++ (ph.data ++ s₂.data)).drop i) = false) :
    replaceNoncePlaceholder (s₁ ++ ph ++ s₂) ph sec = s₁ ++ sec ++ s₂ := by
  apply String.ext
  show jsReplaceList ph.data sec.data (s₁ ++ ph ++ s₂).data = (s₁ ++ sec ++ s₂).data
  have hd : (s₁ ++ ph ++ s₂).data = s₁.data ++ (ph.data ++ s₂.data) := by
    simp [String.data_append]
  have hd' : (s₁ ++ sec ++ s₂).data = s₁.data ++ (sec.data ++ s₂.data) := by
    simp [String.data_append]
  rw [hd, hd', jsReplaceList_append _ _ _ _ h]

theorem objGet_cons {α : Type} (k₁ : String) (v₁ : α) (rest : List (String × α)) (k : String) :
    objGet ((k₁, v₁) :: rest) k = if k₁ = k then some v₁ else objGet rest k := rfl

theorem objGet_map_replace {α : Type} (m : List (String × α)) (k k' : String) (v : α)
    (h : k' ≠ k) :
    objGet (m.map (objReplaceEntry k v)) k' = objGet m k' := by
  induction m with
  | nil => rfl
  | cons p rest ih =>
    obtain ⟨k₁, v₁⟩ := p
    rw [List.map_cons]
    have hhead : objReplaceEntry k v (k₁, v₁) = if k₁ = k then (k, v) else (k₁, v₁) := rfl
    rw [hhead]
    by_cases hp : k₁ = k
    · rw [if_pos hp, objGet_cons, objGet_cons, if_neg (fun hkk => h hkk.symm),
        if_neg (show ¬ (k₁ = k') by rw [hp]; exact fun hkk => h hkk.symm), ih]
    · rw [if_neg hp, objGet_cons, objGet_cons]
      by_cases hq : k₁ = k'
      · rw [if_pos hq, if_pos hq]
      · rw [if_neg hq, if_neg hq, ih]

theorem objGet_append_single {α : Type} (m : List (String × α)) (k k' : String) (v : α)
    (h : k' ≠ k) :
    objGet (m ++ [(k, v)]) k' = objGet m k' := by
  induction m with
  | nil =>
    show objGet [(k, v)] k' = none
    rw [objGet_cons, if_neg (fun hkk => h hkk.symm)]
    rfl
  | cons p rest ih =>
    obtain ⟨k₁, v₁⟩ := p
    rw [List.cons_append, objGet_cons, objGet_cons]
    by_cases hq : k₁ = k'
    · rw [if_pos hq, if_pos hq]
    · rw [if_neg hq, if_neg hq, ih]

theorem objGet_objSet_ne {α : Type} (m : List (String × α)) (k k' : String) (v : α)
    (h : k' ≠ k) :
    objGet (objSet m k v) k' = objGet m k' := by
  unfold objSet
  split
  · exact objGet_map_replace m k k' v h
  · exact objGet_append_single m k k' v h

theorem objGet_all_free (m : List (String × String)) (ph k e : String)
    (hall : m.all (fun p => !(jsIncludes p.2 ph)) = true) (hget : objGet m k = some e) :
    jsIncludes e ph = false := by
  induction m with
  | nil => cases hget
  | cons p rest ih =>
    rcases List.all_eq_true.mp hall (p.1, p.2) (by simp) with hfree
    simp only [objGet] at hget
    split at hget
    · cases hget
      simpa using hfree
    · exact ih (List.all_eq_true.mpr fun x hx => List.all_eq_true.mp hall x (by simp [hx])) hget

theorem list_map_self {α : Type} (l : List α) (f : α → α) (h : ∀ a ∈ l, f a = a) :
    l.map f = l := by
  induction l with
  | nil => rfl
  | cons a rest ih => simp [h a (by simp), ih fun x hx => h x (by simp [hx])]

theorem string_append_empty (s : String) : s ++ "" = s := by
  apply String.ext
  rw [String.data_append]
  show s.data ++ [] = s.data
  exact List.append_nil s.data

theorem origin_resolve_aux (value : AuthorisedOrigins) (environment : Option String) :
    computeOriginForEnvironment value environment = resolveSpec value environment := by
  cases value with
  | str s => rfl
  | map m =>
    cases environment with
    | none => rfl
    | some e => cases h : objGet m e <;> simp [computeOriginForEnvironment, resolveSpec, h]

theorem computeDevelopmentDirective_go (policies : CspPolicies) (acc : String) :
    policies.foldl
      (fun rules p =>
        let allowedOrigin : String :=
          match p.2 with
          | .str s => s
          | .map m => ((objGet m "default").getD "undefined")
        rules ++ p.1 ++ " " ++ allowedOrigin ++ ";")
      acc = acc ++ liveCompileSpec policies := by
  induction policies generalizing acc with
  | nil => simp [liveCompileSpec, string_append_empty]
  | cons p rest ih =>
    obtain ⟨d, v⟩ := p
    rw [List.foldl_cons, ih]
    cases v <;>
      (apply String.ext
       simp [liveCompileSpec, resolveSpec, String.data_append, List.append_assoc])

theorem envCompile_aux (policies : CspPolicies) (environment : Option String) :
    computeCspDirectiveForEnvironment policies environment = envCompileSpec environment policies := by
  induction policies with
  | nil => rfl
  | cons p rest ih =>
    cases rest with
    | nil =>
      show jsJoin "; " [p.1 ++ " " ++ computeOriginForEnvironment p.2 environment]
        = p.1 ++ " " ++ resolveSpec p.2 environment
      rw [origin_resolve_aux]
      rfl
    | cons q rest' =>
      have h1 : computeCspDirectiveForEnvironment (p :: q :: rest') environment
          = p.1 ++ " " ++ computeOriginForEnvironment p.2 environment ++ "; "
            ++ computeCspDirectiveForEnvironment (q :: rest') environment := rfl
      rw [h1, ih, origin_resolve_aux]
      rfl

theorem substValue_str (nonceValue noncePlaceholder : String) (developmentKey : Option String)
    (s : String) :
    substValue nonceValue noncePlaceholder developmentKey (.str s)
      = if jsIncludes s (nonceToReplace noncePlaceholder) then
          .str (replaceNoncePlaceholder s noncePlaceholder nonceValue)
        else .str s := rfl

theorem substMap_dev (nonceValue noncePlaceholder k : String) (m : List (String × String))
    (e : String) (hk : k ≠ "") (hget : objGet m k = some e) (he : e ≠ "")
    (hinc : jsIncludes e (nonceToReplace noncePlaceholder) = true) :
    substMap nonceValue noncePlaceholder (some k) m
      = .map (objSet m k (replaceNoncePlaceholder e noncePlaceholder nonceValue)) := by
  have hkb : (k == "") = false := by simp [hk]
  have heb : (e == "") = false := by simp [he]
  simp [substMap, hget, hkb, heb, hinc]

theorem subst_free_fixed (out : CspPolicies) (nonceValue noncePlaceholder : String)
    (developmentKey : Option String)
    (hfree : rulesPlaceholderFree noncePlaceholder out = true) :
    computeRulesWithNonce out nonceValue noncePlaceholder developmentKey = out := by
  unfold computeRulesWithNonce
  apply list_map_self
  intro p hp
  have hv : valuePlaceholderFree noncePlaceholder p.2 = true :=
    List.all_eq_true.mp hfree p hp
  obtain ⟨d, v⟩ := p
  suffices hs : substValue nonceValue noncePlaceholder developmentKey v = v by rw [hs]
  cases v with
  | str s =>
    have hs : jsIncludes s noncePlaceholder = false := by
      simpa [valuePlaceholderFree] using hv
    have hnt : jsIncludes s (nonceToReplace noncePlaceholder) = false :=
      jsIncludes_nonceToReplace_false s noncePlaceholder hs
    simp [substValue, hnt]
  | map m =>
    have hm : m.all (fun q => !(jsIncludes q.2 noncePlaceholder)) = true := by
      simpa [valuePlaceholderFree] using hv
    have hdef : substMapDefault nonceValue noncePlaceholder m = .map m := by
      unfold substMapDefault
      cases hg : objGet m "default" with
      | none => rfl
      | some dv =>
        have h1 : jsIncludes dv noncePlaceholder = false :=
          objGet_all_free m noncePlaceholder "default" dv hm hg
        have h2 : jsIncludes dv (nonceToReplace noncePlaceholder) = false :=
          jsIncludes_nonceToReplace_false _ _ h1
        simp [h2]
    show substMap nonceValue noncePlaceholder developmentKey m = .map m
    cases developmentKey with
    | none => simp [substMap, hdef]
    | some k =>
      cases hg : objGet m k with
      | none => simp [substMap, hg, hdef]
      | some e =>
        have h1 : jsIncludes e noncePlaceholder = false :=
          objGet_all_free m noncePlaceholder k e hm hg
        have h2 : jsIncludes e (nonceToReplace noncePlaceholder) = false :=
          jsIncludes_nonceToReplace_false _ _ h1
        simp [substMap, hg, h2, hdef]

theorem substValueHeap_extends (store : Store) (nonceValue noncePlaceholder : String)
    (developmentKey : Option String) (v : JsVal) :
    ∃ ext, (substValueHeap store nonceValue noncePlaceholder developmentKey v).1
      = store ++ ext := by
  cases v with
  | vstr s => exact ⟨[], (List.append_nil store).symm⟩
  | vref r =>
    unfold substValueHeap
    dsimp only
    split
    · exact ⟨_, rfl⟩
    · split
      · split
        · exact ⟨_, rfl⟩
        · exact ⟨[], (List.append_nil store).symm⟩
      · exact ⟨[], (List.append_nil store).symm⟩

theorem substEntriesHeap_extends (nonceValue noncePlaceholder : String)
    (developmentKey : Option String) (l : List (String × JsVal)) (store : Store) :
    ∃ ext, (substEntriesHeap nonceValue noncePlaceholder developmentKey store l).1
      = store ++ ext := by
  induction l generalizing store with
  | nil => exact ⟨[], (List.append_nil store).symm⟩
  | cons p rest ih =>
    obtain ⟨d, v⟩ := p
    obtain ⟨e₁, h₁⟩ := substValueHeap_extends store nonceValue noncePlaceholder developmentKey v
    obtain ⟨e₂, h₂⟩ :=
      ih (substValueHeap store nonceValue noncePlaceholder developmentKey v).1
    refine ⟨e₁ ++ e₂, ?_⟩
    show (substEntriesHeap nonceValue noncePlaceholder developmentKey
      (substValueHeap store nonceValue noncePlaceholder developmentKey v).1 rest).1
      = store ++ (e₁ ++ e₂)
    rw [h₂, h₁, List.append_assoc]

/-- C3: for every origin value and every (possibly absent) environment, the
source resolver `computeOriginForEnvironment` agrees with the reference
definition `resolveSpec` written from the spec: a plain string is returned
unchanged regardless of the environment; for an environment map, the
environment's entry is returned when the environment is provided and present as
a key, and the map's `default` entry is returned otherwise. -/
theorem c3_origin_resolver_refines_spec (value : AuthorisedOrigins) (environment : Option String) :
    computeOriginForEnvironment value environment = resolveSpec value environment :=
  origin_resolve_aux value environment

/-- C4: the live-serving compile `computeDevelopmentDirective` resolves each
directive with no explicit environment (plain-string or `default` branch) and
returns the concatenation, in rule-set insertion order, of
`"<directive> <value>;"` for every entry with no inter-entry separator; in
particular the two-directive scenario compiles to
`"default-src 'self';script-src 'self';"`. -/
theorem c4_live_serving_compile :
    (∀ policies : CspPolicies, computeDevelopmentDirective policies = liveCompileSpec policies)
    ∧ computeDevelopmentDirective
        [("default-src", .str "'self'"), ("script-src", .str "'self'")]
        = "default-src 'self';script-src 'self';" := by
  constructor
  · intro policies
    unfold computeDevelopmentDirective
    rw [computeDevelopmentDirective_go]
    apply String.ext
    rw [String.data_append]
    show [] ++ (liveCompileSpec policies).data = (liveCompileSpec policies).data
    exact List.nil_append _
  · decide

/-- C5: the per-environment compile `computeCspDirectiveForEnvironment` agrees
with the reference definition `envCompileSpec` written from the spec — one
`"<directive> <value>"` clause per entry, in rule-set insertion order, separated
by `"; "` with no trailing separator — and skips no entry: a directive whose
resolved value is the empty string still contributes its clause. -/
theorem c5_environment_compile :
    (∀ (policies : CspPolicies) (environment : Option String),
      computeCspDirectiveForEnvironment policies environment = envCompileSpec environment policies)
    ∧ computeCspDirectiveForEnvironment
        [("script-src", .str ""), ("img-src", .str "'self'")] none
        = "script-src ; img-src 'self'" :=
  ⟨fun policies environment => envCompile_aux policies environment, by decide⟩

/-- C1 (corrected): when the development-key branch of `computeRulesWithNonce`
fires — the development key is set and non-empty, and the map's entry for it is
a non-empty string containing the quoted nonce pattern — the substitution
rewrites only that entry (placeholder replaced by the secret there) and returns
early: the `default` entry keeps its pre-call value even if it also contains
the nonce pattern, because the source's early `return` makes the two checks
mutually exclusive, not independent. -/
theorem c1_development_branch_exclusive (rules : CspPolicies)
    (nonceValue noncePlaceholder k d : String) (m : List (String × String)) (e : String)
    (hk : k ≠ "") (hget : objGet m k = some e) (he : e ≠ "")
    (hinc : jsIncludes e (nonceToReplace noncePlaceholder) = true) :
    computeRulesWithNonce ((d, .map m) :: rules) nonceValue noncePlaceholder (some k)
      = (d, .map (objSet m k (replaceNoncePlaceholder e noncePlaceholder nonceValue)))
        :: computeRulesWithNonce rules nonceValue noncePlaceholder (some k)
    ∧ (k ≠ "default" →
        objGet (objSet m k (replaceNoncePlaceholder e noncePlaceholder nonceValue)) "default"
          = objGet m "default") := by
  constructor
  · unfold computeRulesWithNonce
    rw [List.map_cons]
    show (d, substValue nonceValue noncePlaceholder (some k) (.map m)) :: _ = _
    rw [show substValue nonceValue noncePlaceholder (some k) (AuthorisedOrigins.map m)
          = substMap nonceValue noncePlaceholder (some k) m from rfl,
      substMap_dev nonceValue noncePlaceholder k m e hk hget he hinc]
  · intro hkd
    exact objGet_objSet_ne m k "default" _ (fun hh => hkd hh.symm)

/-- C1 witness: the amended behaviour at a concrete input on which the
development-branch hypotheses hold. -/
theorem c1_witness :
    computeRulesWithNonce
        (("script-src",
            AuthorisedOrigins.map [("default", "'nonce-{RANDOM}'"), ("dev", "'nonce-{RANDOM}'")])
          :: []) "abc123" "{RANDOM}" (some "dev")
      = ("script-src",
          AuthorisedOrigins.map
            (objSet [("default", "'nonce-{RANDOM}'"), ("dev", "'nonce-{RANDOM}'")] "dev"
              (replaceNoncePlaceholder "'nonce-{RANDOM}'" "{RANDOM}" "abc123")))
        :: computeRulesWithNonce [] "abc123" "{RANDOM}" (some "dev")
    ∧ ("dev" ≠ "default" →
        objGet
          (objSet [("default", "'nonce-{RANDOM}'"), ("dev", "'nonce-{RANDOM}'")] "dev"
            (replaceNoncePlaceholder "'nonce-{RANDOM}'" "{RANDOM}" "abc123")) "default"
          = objGet [("default", "'nonce-{RANDOM}'"), ("dev", "'nonce-{RANDOM}'")] "default") :=
  c1_development_branch_exclusive [] "abc123" "{RANDOM}" "dev" "script-src"
    [("default", "'nonce-{RANDOM}'"), ("dev", "'nonce-{RANDOM}'")] "'nonce-{RANDOM}'"
    (by decide) (by decide) (by decide) (by decide)

/-- C1 counterexample: a rule set whose development entry and `default` entry
both contain the nonce pattern; the substitution pass rewrites the development
entry only, and the `default` entry still holds the placeholder — refuting the
claim that both entries are rewritten in the same pass. -/
theorem c1_counterexample :
    computeRulesWithNonce
        [("script-src",
            AuthorisedOrigins.map
              [("default", "'self' 'nonce-{RANDOM}'"), ("dev", "'self' 'nonce-{RANDOM}'")])]
        "abc123" "{RANDOM}" (some "dev")
      = [("script-src",
          AuthorisedOrigins.map
            [("default", "'self' 'nonce-{RANDOM}'"), ("dev", "'self' 'nonce-abc123'")])]
    ∧ "'self' 'nonce-{RANDOM}'" ≠ "'self' 'nonce-abc123'" :=
  ⟨by decide, by decide⟩

/-- C2 (corrected): when a plain-string value contains the quoted nonce
pattern, `computeRulesWithNonce` replaces the first occurrence of the
placeholder by the secret, leaving the surrounding text intact (the value splits
as `s₁ ++ placeholder ++ s₂` around its first placeholder occurrence and is
rewritten to `s₁ ++ secret ++ s₂`); and the spec's scenario value
`"'self' nonce-{RANDOM}"` lacks the surrounding single quotes required by the
guard, so the substitution pass leaves it unchanged. -/
theorem c2_first_occurrence_substitution :
    (∀ (rules : CspPolicies) (nonceValue noncePlaceholder : String)
        (developmentKey : Option String) (d s₁ s₂ : String),
      (∀ i, i < s₁.data.length →
        noncePlaceholder.data.isPrefixOf
          ((s₁.data ++ (noncePlaceholder.data ++ s₂.data)).drop i) = false) →
      jsIncludes (s₁ ++ noncePlaceholder ++ s₂) (nonceToReplace noncePlaceholder) = true →
      computeRulesWithNonce ((d, .str (s₁ ++ noncePlaceholder ++ s₂)) :: rules)
          nonceValue noncePlaceholder developmentKey
        = (d, .str (s₁ ++ nonceValue ++ s₂))
          :: computeRulesWithNonce rules nonceValue noncePlaceholder developmentKey)
    ∧ computeRulesWithNonce [("script-src", .str "'self' nonce-{RANDOM}")]
        "abc123" "{RANDOM}" none
        = [("script-src", .str "'self' nonce-{RANDOM}")] := by
  constructor
  · intro rules nonceValue noncePlaceholder developmentKey d s₁ s₂ hfirst hinc
    unfold computeRulesWithNonce
    rw [List.map_cons]
    show (d, substValue nonceValue noncePlaceholder developmentKey
      (.str (s₁ ++ noncePlaceholder ++ s₂))) :: _ = _
    rw [substValue_str, if_pos hinc,
      replaceNoncePlaceholder_split s₁ s₂ noncePlaceholder nonceValue hfirst]
  · decide

/-- C2 witness: the corrected behaviour at a concrete quoted nonce value. -/
theorem c2_witness :
    computeRulesWithNonce (("script-src", AuthorisedOrigins.str ("'nonce-" ++ "{RANDOM}" ++ "'")) :: [])
        "abc123" "{RANDOM}" none
      = ("script-src", AuthorisedOrigins.str ("'nonce-" ++ "abc123" ++ "'"))
        :: computeRulesWithNonce [] "abc123" "{RANDOM}" none :=
  c2_first_occurrence_substitution.1 [] "abc123" "{RANDOM}" none "script-src" "'nonce-" "'"
    (by decide) (by decide)

/-- C2 counterexample: a value satisfying the claim's guard in which only the
first of two placeholder occurrences is replaced (refuting "every occurrence"),
and the claim's own scenario value, which the substitution pass leaves
unchanged instead of producing `"'self' nonce-abc123"`. -/
theorem c2_counterexample :
    computeRulesWithNonce [("script-src", AuthorisedOrigins.str "'nonce-{RANDOM}' 'nonce-{RANDOM}'")]
        "abc123" "{RANDOM}" none
      = [("script-src", AuthorisedOrigins.str "'nonce-abc123' 'nonce-{RANDOM}'")]
    ∧ "'nonce-abc123' 'nonce-{RANDOM}'" ≠ "'nonce-abc123' 'nonce-abc123'"
    ∧ computeRulesWithNonce [("script-src", AuthorisedOrigins.str "'self' nonce-{RANDOM}")]
        "abc123" "{RANDOM}" none
        = [("script-src", AuthorisedOrigins.str "'self' nonce-{RANDOM}")]
    ∧ "'self' nonce-{RANDOM}" ≠ "'self' nonce-abc123" :=
  ⟨by decide, by decide, by decide, by decide⟩

/-- C8: once the placeholder no longer occurs anywhere in the output of the
first substitution pass, a second pass with the same secret and placeholder
returns the first pass's output unchanged. -/
theorem c8_substitution_idempotent (rules : CspPolicies) (nonceValue noncePlaceholder : String)
    (developmentKey : Option String)
    (hfree : rulesPlaceholderFree noncePlaceholder
      (computeRulesWithNonce rules nonceValue noncePlaceholder developmentKey) = true) :
    computeRulesWithNonce (computeRulesWithNonce rules nonceValue noncePlaceholder developmentKey)
        nonceValue noncePlaceholder developmentKey
      = computeRulesWithNonce rules nonceValue noncePlaceholder developmentKey :=
  subst_free_fixed _ _ _ _ hfree

/-- C8 witness: idempotence at a concrete rule set whose first pass removes
the placeholder. -/
theorem c8_witness :
    computeRulesWithNonce
        (computeRulesWithNonce [("script-src", AuthorisedOrigins.str "'self' 'nonce-{RANDOM}'")]
          "abc123" "{RANDOM}" none) "abc123" "{RANDOM}" none
      = computeRulesWithNonce [("script-src", AuthorisedOrigins.str "'self' 'nonce-{RANDOM}'")]
          "abc123" "{RANDOM}" none :=
  c8_substitution_idempotent [("script-src", AuthorisedOrigins.str "'self' 'nonce-{RANDOM}'")]
    "abc123" "{RANDOM}" none (by decide)

/-- C9: in the heap model the substitution pass only allocates — the resulting
store extends the input store — so every pre-existing object, in particular the
caller's rule set object and the environment maps it references, maps every
directive to exactly the value it mapped to before the call. -/
theorem c9_substitution_no_mutation (store : Store) (rulesRef : Nat)
    (nonceValue noncePlaceholder : String) (developmentKey : Option String) :
    (∃ ext, (computeRulesWithNonceHeap store rulesRef nonceValue noncePlaceholder developmentKey).1
        = store ++ ext)
    ∧ ∀ i, i < store.length →
        (computeRulesWithNonceHeap store rulesRef nonceValue noncePlaceholder developmentKey).1[i]?
          = store[i]? := by
  obtain ⟨ext, hx⟩ := substEntriesHeap_extends nonceValue noncePlaceholder developmentKey
    (store.getD rulesRef []) store
  constructor
  · refine ⟨ext ++ [(substEntriesHeap nonceValue noncePlaceholder developmentKey store
      (store.getD rulesRef [])).2], ?_⟩
    show (substEntriesHeap nonceValue noncePlaceholder developmentKey store
        (store.getD rulesRef [])).1 ++ _ = _
    rw [hx, List.append_assoc]
  · intro i hi
    show ((substEntriesHeap nonceValue noncePlaceholder developmentKey store
        (store.getD rulesRef [])).1
      ++ [(substEntriesHeap nonceValue noncePlaceholder developmentKey store
        (store.getD rulesRef [])).2])[i]? = store[i]?
    rw [hx, List.append_assoc]
    exact List.getElem?_append_left hi

/-- C9 witness: the rules object and the environment map it references are
unchanged in the store after a substitution that rewrites the map. -/
theorem c9_witness :
    (computeRulesWithNonceHeap
        [[("script-src", JsVal.vref 1)], [("default", JsVal.vstr "'nonce-{RANDOM}'")]]
        0 "abc123" "{RANDOM}" none).1[1]?
      = ([[("script-src", JsVal.vref 1)], [("default", JsVal.vstr "'nonce-{RANDOM}'")]] : Store)[1]? :=
  (c9_substitution_no_mutation
    [[("script-src", JsVal.vref 1)], [("default", JsVal.vstr "'nonce-{RANDOM}'")]]
    0 "abc123" "{RANDOM}" none).2 1 (by decide)

/-- C10: the rule set returned by the substitution pass has exactly the same
directive keys as the input, in the same order — values only are rewritten. -/
theorem c10_directive_keys_preserved (rules : CspPolicies) (nonceValue noncePlaceholder : String)
    (developmentKey : Option String) :
    (computeRulesWithNonce rules nonceValue noncePlaceholder developmentKey).map Prod.fst
      = rules.map Prod.fst := by
  unfold computeRulesWithNonce
  rw [List.map_map]
  rfl

theorem genLog_env (fs : FsOp → Bool) (headerName : String) (rules : CspPolicies)
    (environment : String) :
    genLogEnvironment (generateCspConfigurationFileForEnvironment fs headerName rules environment)
      = environment := by
  unfold generateCspConfigurationFileForEnvironment
  dsimp only
  split
  · split <;> rfl
  · rfl

theorem generateFiles_map_env (fs : FsOp → Bool) (reportType : Option ReportType)
    (rules : CspPolicies) (environments : List String) :
    (generateFiles fs reportType rules environments).map genLogEnvironment = environments := by
  unfold generateFiles
  rw [List.map_map]
  exact list_map_self environments _
    (fun e _ => genLog_env fs (computeHeaderNameByReportType reportType) rules e)

/-- C6: the regeneration trigger compares the changed path's base name with the
base name of the configured rules-source path and with the fixed file name
`vite.config.ts`; exactly on a match it re-runs the full generation routine,
which produces one outcome per configured environment; on any other base name
it performs no generation at all (no artifact written). -/
theorem c6_regeneration_trigger (fs : FsOp → Bool) (reportType : Option ReportType)
    (rules : CspPolicies) (environments : List String)
    (cspConfigurationFilePath : Option String) (changedPath : String) :
    ((basename changedPath
          = basename (cspConfigurationFilePath.getD "content-security-policy/csp-configuration.ts")
        ∨ basename changedPath = "vite.config.ts") →
      handleOnChange fs reportType rules environments cspConfigurationFilePath changedPath
          = generateFiles fs reportType rules environments
      ∧ ∀ env ∈ environments,
          ∃ entry ∈ handleOnChange fs reportType rules environments cspConfigurationFilePath
            changedPath, genLogEnvironment entry = env)
    ∧ ((basename changedPath
          ≠ basename (cspConfigurationFilePath.getD "content-security-policy/csp-configuration.ts")
        ∧ basename changedPath ≠ "vite.config.ts") →
      handleOnChange fs reportType rules environments cspConfigurationFilePath changedPath = []) := by
  constructor
  · intro hmatch
    have hcond : (basename changedPath
        == basename (cspConfigurationFilePath.getD "content-security-policy/csp-configuration.ts")
        || basename changedPath == "vite.config.ts") = true := by
      rcases hmatch with h | h <;> simp [h]
    have heq : handleOnChange fs reportType rules environments cspConfigurationFilePath changedPath
        = generateFiles fs reportType rules environments := by
      unfold handleOnChange
      dsimp only
      rw [hcond]
      rfl
    refine ⟨heq, fun env henv => ?_⟩
    refine ⟨generateCspConfigurationFileForEnvironment fs
      (computeHeaderNameByReportType reportType) rules env, ?_, ?_⟩
    · rw [heq]
      exact List.mem_map.mpr ⟨env, henv, rfl⟩
    · exact genLog_env fs (computeHeaderNameByReportType reportType) rules env
  · intro hmiss
    have hcond : (basename changedPath
        == basename (cspConfigurationFilePath.getD "content-security-policy/csp-configuration.ts")
        || basename changedPath == "vite.config.ts") = false := by
      simp [hmiss.1, hmiss.2]
    unfold handleOnChange
    dsimp only
    rw [hcond]
    rfl

/-- C6 witness: a change to the rules file (under its default path) triggers
generation for every configured environment, and an unrelated file name
triggers nothing. -/
theorem c6_witness :
    (handleOnChange (fun _ => true) none [("default-src", .str "'self'")]
        ["production", "staging"] none "src/config/csp-configuration.ts"
      = generateFiles (fun _ => true) none [("default-src", .str "'self'")]
        ["production", "staging"]
    ∧ ∀ env ∈ ["production", "staging"],
        ∃ entry ∈ handleOnChange (fun _ => true) none [("default-src", .str "'self'")]
          ["production", "staging"] none "src/config/csp-configuration.ts",
          genLogEnvironment entry = env)
    ∧ handleOnChange (fun _ => true) none [("default-src", .str "'self'")]
        ["production", "staging"] none "src/index.html" = [] :=
  ⟨(c6_regeneration_trigger (fun _ => true) none [("default-src", .str "'self'")]
      ["production", "staging"] none "src/config/csp-configuration.ts").1 (by decide),
   (c6_regeneration_trigger (fun _ => true) none [("default-src", .str "'self'")]
      ["production", "staging"] none "src/index.html").2 (by decide)⟩

/-- C7: a per-environment generation failure (directory creation or artifact
write rejected) is logged as the failure outcome naming that environment, and
the outcomes of all environments before and after it are exactly what they
would be on their own — a failing environment never prevents the others — and
every configured environment contributes exactly one outcome, in order. -/
theorem c7_failure_isolation (fs : FsOp → Bool) (reportType : Option ReportType)
    (rules : CspPolicies) (envs₁ : List String) (env : String) (envs₂ : List String)
    (hfail : generateCspConfigurationFileForEnvironment fs
      (computeHeaderNameByReportType reportType) rules env = .failure env) :
    generateFiles fs reportType rules (envs₁ ++ env :: envs₂)
      = generateFiles fs reportType rules envs₁
        ++ GenLogEntry.failure env :: generateFiles fs reportType rules envs₂
    ∧ (generateFiles fs reportType rules (envs₁ ++ env :: envs₂)).map genLogEnvironment
        = envs₁ ++ env :: envs₂ := by
  constructor
  · unfold generateFiles
    rw [List.map_append, List.map_cons, hfail]
  · exact generateFiles_map_env fs reportType rules (envs₁ ++ env :: envs₂)

/-- C7 witness: with an oracle that rejects exactly the write of the staging
artifact, the staging environment is logged as the failure and the surrounding
environments still produce their artifacts. -/
theorem c7_witness :
    generateFiles
        (fun op => match op with
          | FsOp.writeOp p _ =>
            !(p == "content-security-policy/configurations/csp-configuration.staging.txt")
          | FsOp.mkdirOp _ => true)
        none [("default-src", .str "'self'")] (["production"] ++ "staging" :: ["qa"])
      = generateFiles
          (fun op => match op with
            | FsOp.writeOp p _ =>
              !(p == "content-security-policy/configurations/csp-configuration.staging.txt")
            | FsOp.mkdirOp _ => true)
          none [("default-src", .str "'self'")] ["production"]
        ++ GenLogEntry.failure "staging"
          :: generateFiles
            (fun op => match op with
              | FsOp.writeOp p _ =>
                !(p == "content-security-policy/configurations/csp-configuration.staging.txt")
              | FsOp.mkdirOp _ => true)
            none [("default-src", .str "'self'")] ["qa"]
    ∧ (generateFiles
        (fun op => match op with
          | FsOp.writeOp p _ =>
            !(p == "content-security-policy/configurations/csp-configuration.staging.txt")
          | FsOp.mkdirOp _ => true)
        none [("default-src", .str "'self'")]
        (["production"] ++ "staging" :: ["qa"])).map genLogEnvironment
      = ["production"] ++ "staging" :: ["qa"] :=
  c7_failure_isolation
    (fun op => match op with
      | FsOp.writeOp p _ =>
        !(p == "content-security-policy/configurations/csp-configuration.staging.txt")
      | FsOp.mkdirOp _ => true)
    none [("default-src", .str "'self'")] ["production"] "staging" ["qa"] (by decide)

example : computeOriginForEnvironment (.str "'self'") (some "production") = "'self'" := by decide

example :
    computeOriginForEnvironment
      (.map [("default", "'self'"), ("production", "'self' https://p.example.com")])
      (some "production") = "'self' https://p.example.com" := by decide

example :
    computeCspDirectiveForEnvironment
      [("script-src", .map [("default", "'self'"), ("production", "'self' https://p.example.com")])]
      (some "production") = "script-src 'self' https://p.example.com" := by decide

example :
    computeDevelopmentDirective [("default-src", .str "'self'"), ("script-src", .str "'self'")]
      = "default-src 'self';script-src 'self';" := by decide

example :
    computeRulesWithNonce [("script-src", .str "'self' 'nonce-{RANDOM}'")] "abc123" "{RANDOM}" none
      = [("script-src", .str "'self' 'nonce-abc123'")] := by decide

example :
    computeRulesWithNonce [("script-src", .str "'self' nonce-{RANDOM}")] "abc123" "{RANDOM}" none
      = [("script-src", .str "'self' nonce-{RANDOM}")] := by decide

example :
    computeRulesWithNonce
      [("script-src", .map [("default", "'nonce-{RANDOM}'"), ("dev", "'nonce-{RANDOM}'")])]
      "abc123" "{RANDOM}" (some "dev")
      = [("script-src", .map [("default", "'nonce-{RANDOM}'"), ("dev", "'nonce-abc123'")])] := by
  decide
